import Mathlib

/-!
Verification development for the HatakeMobile utility layer
(`src/utils/storage.ts` and `src/utils/network.ts`).

The TypeScript source is shallowly embedded: the `StorageManager` and
`NetworkManager` methods become pure Lean functions over explicit state
(`AsyncStorage` becomes a key/value map, `Date.now()` and `Math.random()`
become explicit parameters, `async` sequencing becomes ordinary function
composition).  JavaScript `undefined` becomes `Option.none`, JavaScript
truthiness is modelled explicitly where the source relies on it.
-/

namespace Hatake

/-! ## Model of the platform JSON library

`StorageManager.setItem` / `getItem` serialize through the JavaScript
builtins `JSON.stringify` / `JSON.parse`, which are not part of the
repository.  They are modelled here over an inductive type of JSON
values: numbers are modelled as integers, and string escaping covers the
quote and backslash characters (the control-character escapes that
`JSON.stringify` additionally emits do not affect the round-trip
property and are omitted from the model). -/

inductive Json where
  | null : Json
  | bool (b : Bool) : Json
  | num (n : Int) : Json
  | str (s : List Char) : Json
  | arr (elements : List Json) : Json
  | obj (members : List (List Char × Json)) : Json
deriving Repr

/-- decimal digit test on characters (code points 48–57) -/
def isDigitC (c : Char) : Bool := 48 ≤ c.toNat && c.toNat ≤ 57

/-- the character for a decimal digit value -/
def digitC (d : Nat) : Char := Char.ofNat (48 + d)

/-- the decimal value of a digit character -/
def digitVal (c : Char) : Nat := c.toNat - 48

/-- decimal digits of a natural number, most significant first -/
def natChars (n : Nat) : List Char :=
  if _h : n < 10 then [digitC n]
  else natChars (n / 10) ++ [digitC (n % 10)]
decreasing_by exact Nat.div_lt_self (by omega) (by omega)

/-- JSON string escaping: quote and backslash are escaped with a backslash -/
def escapeChars : List Char → List Char
  | [] => []
  | c :: cs =>
    if c = '"' ∨ c = '\\' then '\\' :: c :: escapeChars cs
    else c :: escapeChars cs

mutual

/-- model of `JSON.stringify` -/
def stringify : Json → List Char
  | .null => 'n' :: ['u', 'l', 'l']
  | .bool true => 't' :: ['r', 'u', 'e']
  | .bool false => 'f' :: ['a', 'l', 's', 'e']
  | .num n => if n < 0 then '-' :: natChars n.natAbs else natChars n.toNat
  | .str s => '"' :: (escapeChars s ++ ['"'])
  | .arr xs => '[' :: (stringifyElems xs ++ [']'])
  | .obj ms => '{' :: (stringifyMembers ms ++ ['}'])

/-- comma-separated serialization of array elements -/
def stringifyElems : List Json → List Char
  | [] => []
  | [x] => stringify x
  | x :: y :: rest => stringify x ++ ',' :: stringifyElems (y :: rest)

/-- comma-separated serialization of object members -/
def stringifyMembers : List (List Char × Json) → List Char
  | [] => []
  | [(k, v)] => '"' :: (escapeChars k ++ '"' :: ':' :: stringify v)
  | (k, v) :: m :: rest =>
      ('"' :: (escapeChars k ++ '"' :: ':' :: stringify v))
        ++ ',' :: stringifyMembers (m :: rest)

end

/-- parse the body of a JSON string (after the opening quote), returning
the decoded characters and the remaining input -/
def parseStr : List Char → Option (List Char × List Char)
  | [] => none
  | c :: cs =>
    if c = '"' then some ([], cs)
    else if c = '\\' then
      match cs with
      | [] => none
      | d :: cs2 =>
        match parseStr cs2 with
        | none => none
        | some (s, r) => some (d :: s, r)
    else
      match parseStr cs with
      | none => none
      | some (s, r) => some (c :: s, r)

/-- parse a nonempty run of decimal digits as a natural number -/
def parseNatCs (cs : List Char) : Option (Nat × List Char) :=
  let ds := cs.takeWhile isDigitC
  if ds.isEmpty then none
  else some (ds.foldl (fun acc c => 10 * acc + digitVal c) 0, cs.dropWhile isDigitC)

mutual

/-- model of the value parser inside `JSON.parse` (fuelled) -/
def parseVal : Nat → List Char → Option (Json × List Char)
  | 0, _ => none
  | _ + 1, [] => none
  | f + 1, c :: cs =>
    if c = 'n' then
      match cs with
      | 'u' :: 'l' :: 'l' :: r => some (.null, r)
      | _ => none
    else if c = 't' then
      match cs with
      | 'r' :: 'u' :: 'e' :: r => some (.bool true, r)
      | _ => none
    else if c = 'f' then
      match cs with
      | 'a' :: 'l' :: 's' :: 'e' :: r => some (.bool false, r)
      | _ => none
    else if c = '"' then
      match parseStr cs with
      | some (s, r) => some (.str s, r)
      | none => none
    else if c = '[' then
      if cs.head? = some ']' then some (.arr [], cs.tail)
      else
        match parseElems f cs with
        | some (xs, r) => some (.arr xs, r)
        | none => none
    else if c = '{' then
      if cs.head? = some '}' then some (.obj [], cs.tail)
      else
        match parseMembers f cs with
        | some (ms, r) => some (.obj ms, r)
        | none => none
    else if c = '-' then
      match parseNatCs cs with
      | some (n, r) => some (.num (-(n : Int)), r)
      | none => none
    else if isDigitC c then
      match parseNatCs (c :: cs) with
      | some (n, r) => some (.num (n : Int), r)
      | none => none
    else none

/-- parse one or more comma-separated array elements up to the closing bracket -/
def parseElems : Nat → List Char → Option (List Json × List Char)
  | 0, _ => none
  | f + 1, cs =>
    match parseVal f cs with
    | none => none
    | some (v, r) =>
      match r with
      | ',' :: r2 =>
        match parseElems f r2 with
        | none => none
        | some (vs, r3) => some (v :: vs, r3)
      | ']' :: r2 => some ([v], r2)
      | _ => none

/-- parse one or more comma-separated object members up to the closing brace -/
def parseMembers : Nat → List Char → Option (List (List Char × Json) × List Char)
  | 0, _ => none
  | f + 1, cs =>
    match cs with
    | '"' :: cs1 =>
      match parseStr cs1 with
      | none => none
      | some (k, r1) =>
        match r1 with
        | ':' :: r2 =>
          match parseVal f r2 with
          | none => none
          | some (v, r3) =>
            match r3 with
            | ',' :: r4 =>
              match parseMembers f r4 with
              | none => none
              | some (ms, r5) => some ((k, v) :: ms, r5)
            | '}' :: r4 => some ([(k, v)], r4)
            | _ => none
        | _ => none
    | _ => none

end

/-- model of `JSON.parse`: the whole input must be consumed -/
def parseJson (cs : List Char) : Option Json :=
  match parseVal (cs.length + 1) cs with
  | some (v, []) => some v
  | _ => none

/-- a list of characters at which number parsing may safely stop:
empty, or starting with a non-digit -/
def boundB : List Char → Bool
  | [] => true
  | c :: _ => !isDigitC c

/-- characters that can start a serialized JSON value -/
def startB (c : Char) : Bool :=
  c = 'n' || c = 't' || c = 'f' || c = '"' || c = '[' || c = '{' || c = '-' || isDigitC c

/-! ## Model of `src/utils/storage.ts` -/

/-- the `AsyncStorage` backing store: keys to serialized strings -/
def Store := String → Option (List Char)

def emptyStore : Store := fun _ => none

/-- `StorageManager.setItem` (lines 27–35): serialize with
`JSON.stringify` and store under the key -/
def setItem (st : Store) (key : String) (value : Json) : Store :=
  fun k => if k = key then some (stringify value) else st k

/-- `StorageManager.getItem` (lines 37–45): read and `JSON.parse`;
`null` (here `none`) when the key is absent; a parse error is caught and
also yields `null` -/
def getItem (st : Store) (key : String) : Option Json :=
  match st key with
  | none => none
  | some cs => parseJson cs

/-- `StorageManager.removeItem` (lines 47–54) -/
def removeItem (st : Store) (key : String) : Store :=
  fun k => if k = key then none else st k

/-- a cache entry, `CacheItem<T>` of `storage.ts`; the `expiresAt?`
field is optional -/
structure CacheItem (V : Type) where
  data : V
  timestamp : Nat
  expiresAt : Option Nat
deriving Repr, DecidableEq

/-- storage as seen by the cache layer: keys to structured cache
entries.  `setCache`/`getCache` go through `setItem`/`getItem`, whose
serialization is lossless (`parseJson_stringify`), so it is elided at
this layer. -/
def CStore (V : Type) := String → Option (CacheItem V)

def emptyCStore (V : Type) : CStore V := fun _ => none

/-- `StorageManager.setCache` (lines 66–73).  `expiresAt` is
`expirationMinutes ? Date.now() + (expirationMinutes * 60 * 1000) :
undefined`: the ternary tests JavaScript truthiness, so an expiration of
`0` behaves like an omitted one. -/
def setCache {V : Type} (st : CStore V) (now : Nat) (key : String) (data : V)
    (expirationMinutes : Option Nat) : CStore V :=
  let expiresAt : Option Nat :=
    match expirationMinutes with
    | some m => if m ≠ 0 then some (now + m * 60 * 1000) else none
    | none => none
  fun k => if k = "cache_" ++ key then some ⟨data, now, expiresAt⟩ else st k

/-- the guard `cacheItem.expiresAt && Date.now() > cacheItem.expiresAt`
of `getCache` (line 84): truthiness of `expiresAt` means present and
nonzero -/
def cacheExpired (expiresAt : Option Nat) (now : Nat) : Bool :=
  match expiresAt with
  | none => false
  | some e => decide (e ≠ 0) && decide (e < now)

/-- `StorageManager.getCache` (lines 75–94): returns the cached data,
deleting the entry and returning `null` when it has expired; also
returns the possibly-updated store -/
def getCache {V : Type} (st : CStore V) (now : Nat) (key : String) :
    Option V × CStore V :=
  match st ("cache_" ++ key) with
  | none => (none, st)
  | some ci =>
    if cacheExpired ci.expiresAt now then
      (none, fun k => if k = "cache_" ++ key then none else st k)
    else (some ci.data, st)

/-- storage as seen by the recent-search helpers: keys to string lists -/
def RStore := String → Option (List String)

/-- `StorageManager.addRecentSearch` (lines 184–199) -/
def addRecentSearch (st : RStore) (query : String) (ty : String) : RStore :=
  let recentKey := "recent_" ++ ty
  let recent := (st recentKey).getD []
  let filtered := recent.filter (fun item => !(item == query))
  let updated := (query :: filtered).take 10
  fun k => if k = recentKey then some updated else st k

/-! ## Model of `src/utils/network.ts` -/

/-- `${Date.now()}_${Math.random()}` — an id built from the current time
and a random draw, both supplied explicitly here -/
def mkId (t r : Nat) : String := toString t ++ "_" ++ toString r

/-- an offline-queue item.  `retryCount` is `some 0` for items written
by `NetworkManager.addToOfflineQueue` and `none` (JavaScript
`undefined`) for items written by `StorageManager.addToOfflineQueue`,
which omits the field. -/
structure QItem where
  id : String
  action : String
  data : Json
  timestamp : Nat
  retryCount : Option Nat

/-- the tracked `NetworkState` of `network.ts` -/
structure NetworkState where
  isConnected : Bool
  isInternetReachable : Bool
  type : String
  isWifiEnabled : Option Bool
deriving Repr, DecidableEq

/-- a raw NetInfo event: the boolean fields are nullable -/
structure NetInfoEvent where
  isConnected : Option Bool
  isInternetReachable : Option Bool
  type : String
  isWifiEnabled : Option Bool

/-- the coercion `state.isConnected || false` performed by the listener -/
def coerceEvent (ev : NetInfoEvent) : NetworkState :=
  { isConnected := ev.isConnected.getD false
    isInternetReachable := ev.isInternetReachable.getD false
    type := ev.type
    isWifiEnabled := ev.isWifiEnabled }

/-- the mutable fields of the `NetworkManager` singleton -/
structure NMState where
  networkState : NetworkState
  offlineQueue : List QItem

/-- the initial in-memory network state (lines 19–23) -/
def initialNetworkState : NetworkState :=
  { isConnected := false, isInternetReachable := false
    type := "unknown", isWifiEnabled := none }

/-- `NetworkManager.isOnline` -/
def isOnline (st : NMState) : Bool :=
  st.networkState.isConnected && st.networkState.isInternetReachable

/-- `NetworkManager.isOffline` -/
def isOffline (st : NMState) : Bool := !isOnline st

/-- one loop iteration of `processOfflineQueue` (lines 113–129) on a
single item: try to execute it and either flag it as processed
(success, or max retries reached after the increment) or keep it with
the incremented retry count.  `(item.retryCount || 0) + 1` reads `0` for
a missing count. -/
def stepItem (exec : QItem → Bool) (it : QItem) : QItem × Bool :=
  if exec it then (it, true)
  else
    let it2 : QItem := { it with retryCount := some (it.retryCount.getD 0 + 1) }
    if it2.retryCount.getD 0 ≥ 3 then (it2, true) else (it2, false)

/-- `NetworkManager.processOfflineQueue` (lines 104–147): returns the
new queue, the collected `processedItems` ids, and the ids of the items
attempted, in attempt order -/
def processOfflineQueue (exec : QItem → Bool) (q : List QItem) :
    List QItem × List String × List String :=
  if q.isEmpty then (q, [], [])
  else
    let stepped := q.map (stepItem exec)
    let processedItems := (stepped.filter (fun p => p.2)).map (fun p => p.1.id)
    ((stepped.map (fun p => p.1)).filter (fun it => !(processedItems.contains it.id)),
      processedItems, q.map (fun it => it.id))

/-- the NetInfo listener installed by `NetworkManager.initialize`
(lines 40–60): update the tracked state and process the offline queue
exactly when the manager was offline and is now connected -/
def handleEvent (exec : QItem → Bool) (st : NMState) (ev : NetInfoEvent) :
    NMState × List String × List String :=
  let newNetworkState := coerceEvent ev
  let wasOffline := !st.networkState.isConnected
  let isNowOnline := newNetworkState.isConnected
  let st1 : NMState := { st with networkState := newNetworkState }
  if wasOffline && isNowOnline then
    let r := processOfflineQueue exec st1.offlineQueue
    ({ st1 with offlineQueue := r.1 }, r.2.1, r.2.2)
  else (st1, [], [])

/-- `StorageManager.addToOfflineQueue` (lines 150–163): appends an item
with a freshly generated id and no `retryCount` field -/
def storageAddToOfflineQueue (q : List QItem) (t r : Nat) (action : String)
    (data : Json) : List QItem :=
  q ++ [{ id := mkId t r, action := action, data := data,
          timestamp := t, retryCount := none }]

/-- `StorageManager.removeFromOfflineQueue` (lines 169–177) -/
def removeFromOfflineQueue (q : List QItem) (itemId : String) : List QItem :=
  q.filter (fun it => !(it.id == itemId))

/-- `NetworkManager.addToOfflineQueue` (lines 91–102): pushes an
in-memory item with id built from `(t1, r1)` and then calls
`StorageManager.addToOfflineQueue`, which generates its own id from the
later calls `(t2, r2)` -/
def nmAddToOfflineQueue (st : NMState) (persisted : List QItem)
    (t1 r1 t2 r2 : Nat) (action : String) (data : Json) :
    NMState × List QItem :=
  let queueItem : QItem := { id := mkId t1 r1, action := action, data := data,
                             timestamp := t1, retryCount := some 0 }
  ({ st with offlineQueue := st.offlineQueue ++ [queueItem] },
    storageAddToOfflineQueue persisted t2 r2 action data)

/-- the storage-update loop after a processing pass (lines 137–139):
remove each processed id from the persisted queue -/
def updateStorageQueue (persisted : List QItem) (processed : List String) :
    List QItem :=
  processed.foldl removeFromOfflineQueue persisted

/-- JavaScript truthiness on JSON values, as used by `if (cachedData)`
in `makeRequest` -/
def truthy : Json → Bool
  | .null => false
  | .bool b => b
  | .num n => decide (n ≠ 0)
  | .str s => !s.isEmpty
  | .arr _ => true
  | .obj _ => true

/-- the error outcomes of `makeRequest` -/
inductive ReqError where
  | noConnection
  | original (e : String)
deriving Repr, DecidableEq

/-- `NetworkManager.makeRequest` (lines 163–206).  Returns the result,
the updated cache store, and whether `requestFn` was invoked. -/
def makeRequest (nm : NMState) (requestFn : Except String Json)
    (fallbackData : Option Json) (cacheKey : Option String)
    (st : CStore Json) (now : Nat) :
    Except ReqError Json × CStore Json × Bool :=
  if isOffline nm then
    let cached := match cacheKey with
      | some k => getCache st now k
      | none => (none, st)
    match cached.1 with
    | some v =>
      if truthy v then (Except.ok v, cached.2, false)
      else
        match fallbackData with
        | some fb => (Except.ok fb, cached.2, false)
        | none => (Except.error ReqError.noConnection, cached.2, false)
    | none =>
      match fallbackData with
      | some fb => (Except.ok fb, cached.2, false)
      | none => (Except.error ReqError.noConnection, cached.2, false)
  else
    match requestFn with
    | Except.ok result =>
      let st1 := match cacheKey with
        | some k => setCache st now k result (some 30)
        | none => st
      (Except.ok result, st1, true)
    | Except.error e =>
      let cached := match cacheKey with
        | some k => getCache st now k
        | none => (none, st)
      match cached.1 with
      | some v =>
        if truthy v then (Except.ok v, cached.2, true)
        else (Except.error (ReqError.original e), cached.2, true)
      | none => (Except.error (ReqError.original e), cached.2, true)

/-- the in-memory offline queue after `k` reconnect processing passes,
pass `k` using success predicate `execs k` -/
def queueAfter (execs : Nat → QItem → Bool) (q0 : List QItem) : Nat → List QItem
  | 0 => q0
  | k + 1 => (processOfflineQueue (execs k) (queueAfter execs q0 k)).1

/-- whether an item with the given id is in the queue -/
def presentIn (q : List QItem) (i : String) : Bool := q.any (fun it => it.id == i)

/-- the number of passes among the first `n` in which an item with the
given id was in the queue; each such pass attempts it exactly once -/
def attemptsBy (execs : Nat → QItem → Bool) (q0 : List QItem) (i : String) : Nat → Nat
  | 0 => 0
  | k + 1 => attemptsBy execs q0 i k +
      (if presentIn (queueAfter execs q0 k) i then 1 else 0)

/-- the concrete C5 scenario: one action queued while offline
(`Date.now() = 5`; the two `Math.random()` draws are `1` and `2`), then
a reconnect replay in which the action executes successfully -/
def c5After : NMState × List QItem :=
  nmAddToOfflineQueue ⟨initialNetworkState, []⟩ [] 5 1 5 2 "sendMessage" Json.null

/-- the successful replay pass of the C5 scenario -/
def c5Pass : List QItem × List String × List String :=
  processOfflineQueue (fun _ => true) c5After.1.offlineQueue

/-! ## Lemmas -/

/-! ### Round-trip of the JSON model: `parseJson (stringify v) = some v` -/

lemma isDigitC_ne_specials {c : Char} (h : isDigitC c = true) :
    c ≠ ']' ∧ c ≠ '}' ∧ c ≠ ',' ∧ c ≠ ':' ∧
      c ≠ 'n' ∧ c ≠ 't' ∧ c ≠ 'f' ∧ c ≠ '"' ∧ c ≠ '[' ∧ c ≠ '{' ∧ c ≠ '-' := by
  refine ⟨?_, ?_, ?_, ?_, ?_, ?_, ?_, ?_, ?_, ?_, ?_⟩ <;> (rintro rfl; revert h; decide)

lemma digitVal_digitC {d : Nat} (h : d < 10) : digitVal (digitC d) = d := by
  interval_cases d <;> decide

lemma isDigitC_digitC {d : Nat} (h : d < 10) : isDigitC (digitC d) = true := by
  interval_cases d <;> decide

lemma natChars_ne_nil (n : Nat) : natChars n ≠ [] := by
  rw [natChars]; split <;> simp

lemma natChars_digits (n : Nat) : ∀ c ∈ natChars n, isDigitC c = true := by
  induction n using Nat.strong_induction_on with
  | _ n ih =>
    rw [natChars]
    split
    · intro c hc
      rw [List.mem_singleton] at hc
      exact hc ▸ isDigitC_digitC (by omega)
    · intro c hc
      have hdiv : n / 10 < n := Nat.div_lt_self (by omega) (by omega)
      rcases List.mem_append.1 hc with h | h
      · exact ih (n / 10) hdiv c h
      · rw [List.mem_singleton] at h
        exact h ▸ isDigitC_digitC (Nat.mod_lt _ (by omega))

lemma foldl_digits_natChars (n : Nat) :
    (natChars n).foldl (fun acc c => 10 * acc + digitVal c) 0 = n := by
  induction n using Nat.strong_induction_on with
  | _ n ih =>
    rw [natChars]
    split
    · next h => simp [digitVal_digitC h]
    · rw [List.foldl_append]
      rw [ih (n / 10) (Nat.div_lt_self (by omega) (by omega))]
      simp only [List.foldl_cons, List.foldl_nil]
      rw [digitVal_digitC (Nat.mod_lt _ (by omega))]
      omega

lemma takeWhile_append_all {p : Char → Bool} {l : List Char} (r : List Char)
    (h : ∀ c ∈ l, p c = true) : (l ++ r).takeWhile p = l ++ r.takeWhile p := by
  induction l with
  | nil => simp
  | cons a l ihl =>
    have ha : p a = true := h a (List.mem_cons_self a l)
    simp only [List.cons_append, List.takeWhile_cons, ha, if_true]
    rw [ihl (fun c hc => h c (List.mem_cons_of_mem a hc))]

lemma dropWhile_append_all {p : Char → Bool} {l : List Char} (r : List Char)
    (h : ∀ c ∈ l, p c = true) : (l ++ r).dropWhile p = r.dropWhile p := by
  induction l with
  | nil => simp
  | cons a l ihl =>
    have ha : p a = true := h a (List.mem_cons_self a l)
    simp only [List.cons_append, List.dropWhile_cons, ha, if_true]
    exact ihl (fun c hc => h c (List.mem_cons_of_mem a hc))

lemma takeWhile_boundB {r : List Char} (h : boundB r = true) :
    r.takeWhile isDigitC = [] ∧ r.dropWhile isDigitC = r := by
  cases r with
  | nil => simp
  | cons c t =>
    simp only [boundB, Bool.not_eq_true'] at h
    simp [List.takeWhile_cons, List.dropWhile_cons, h]

lemma parseNatCs_natChars (n : Nat) (rest : List Char) (hb : boundB rest = true) :
    parseNatCs (natChars n ++ rest) = some (n, rest) := by
  unfold parseNatCs
  rw [takeWhile_append_all rest (natChars_digits n),
      dropWhile_append_all rest (natChars_digits n),
      (takeWhile_boundB hb).1, (takeWhile_boundB hb).2]
  have hne := natChars_ne_nil n
  simp only [List.append_nil, List.isEmpty_eq_true, hne, if_false]
  rw [foldl_digits_natChars]

lemma parseStr_escape (s : List Char) (rest : List Char) :
    parseStr (escapeChars s ++ '"' :: rest) = some (s, rest) := by
  induction s with
  | nil => simp [escapeChars, parseStr.eq_def]
  | cons c cs ih =>
    by_cases hc : c = '"' ∨ c = '\\'
    · simp only [escapeChars, if_pos hc, List.cons_append]
      rw [parseStr.eq_def]
      simp [ih]
    · push_neg at hc
      simp only [escapeChars, if_neg (not_or.mpr hc), List.cons_append]
      rw [parseStr.eq_def]
      simp [ih, hc.1, hc.2]

lemma stringify_length_pos (v : Json) : 0 < (stringify v).length := by
  cases v with
  | null => simp [stringify]
  | bool b => cases b <;> simp [stringify]
  | num n =>
    rw [stringify]
    split
    · simp
    · simpa [List.length_pos] using natChars_ne_nil n.toNat
  | str s => simp [stringify]
  | arr xs => simp [stringify]
  | obj ms => simp [stringify]

lemma stringify_head (v : Json) : ∃ c t, stringify v = c :: t ∧ startB c = true := by
  cases v with
  | null => exact ⟨'n', _, rfl, by decide⟩
  | bool b => cases b
              · exact ⟨'f', _, rfl, by decide⟩
              · exact ⟨'t', _, rfl, by decide⟩
  | num n =>
    rw [stringify]
    split
    · exact ⟨'-', _, rfl, by decide⟩
    · obtain ⟨c, t, hct⟩ := List.exists_cons_of_ne_nil (natChars_ne_nil n.toNat)
      refine ⟨c, t, hct, ?_⟩
      have hd : isDigitC c = true :=
        natChars_digits n.toNat c (hct ▸ List.mem_cons_self c t)
      simp [startB, hd]
  | str s => exact ⟨'"', _, rfl, by decide⟩
  | arr xs => exact ⟨'[', _, rfl, by decide⟩
  | obj ms => exact ⟨'{', _, rfl, by decide⟩

lemma startB_ne_close {c : Char} (h : startB c = true) : c ≠ ']' ∧ c ≠ '}' := by
  constructor <;> (rintro rfl; revert h; decide)

lemma stringifyElems_cons_head (x : Json) (xs : List Json) :
    ∃ c t, stringifyElems (x :: xs) = c :: t ∧ startB c = true := by
  obtain ⟨c, t, hct, hcs⟩ := stringify_head x
  cases xs with
  | nil => exact ⟨c, t, by rw [stringifyElems, hct], hcs⟩
  | cons y ys =>
    exact ⟨c, t ++ ',' :: stringifyElems (y :: ys), by rw [stringifyElems, hct]; simp, hcs⟩

lemma stringifyMembers_cons_head (m : List Char × Json) (ms : List (List Char × Json)) :
    ∃ t, stringifyMembers (m :: ms) = '"' :: t := by
  obtain ⟨k, v⟩ := m
  cases ms with
  | nil => exact ⟨_, rfl⟩
  | cons m2 t => exact ⟨_, rfl⟩

mutual

theorem parseVal_stringify (fuel : Nat) (v : Json) (rest : List Char)
    (hf : (stringify v).length < fuel) (hb : boundB rest = true) :
    parseVal fuel (stringify v ++ rest) = some (v, rest) := by
  cases fuel with
  | zero => exact absurd hf (by omega)
  | succ f =>
    cases v with
    | null => simp [stringify, parseVal]
    | bool b => cases b <;> simp [stringify, parseVal]
    | num n =>
      by_cases hn : n < 0
      · have hp := parseNatCs_natChars n.natAbs rest hb
        simp only [stringify, if_pos hn, List.cons_append]
        simp [parseVal, hp]
        rw [abs_of_neg hn, neg_neg]
      · obtain ⟨c, t, hct⟩ := List.exists_cons_of_ne_nil (natChars_ne_nil n.toNat)
        have hc : isDigitC c = true :=
          natChars_digits n.toNat c (hct ▸ List.mem_cons_self c t)
        obtain ⟨-, -, -, -, h1, h2, h3, h4, h5, h6, h7⟩ := isDigitC_ne_specials hc
        have hp := parseNatCs_natChars n.toNat rest hb
        rw [hct] at hp
        simp only [List.cons_append] at hp
        simp only [stringify, if_neg hn, hct, List.cons_append]
        simp [parseVal, h1, h2, h3, h4, h5, h6, h7, hc, hp]
        omega
    | str s =>
      have hp := parseStr_escape s rest
      simp [stringify, parseVal, hp, List.append_assoc]
    | arr xs =>
      cases xs with
      | nil => simp [stringify, stringifyElems, parseVal]
      | cons x xs =>
        obtain ⟨c, t, hct, hcs⟩ := stringifyElems_cons_head x xs
        have hne := (startB_ne_close hcs).1
        have hrec := parseElems_stringify f x xs rest
          (by simp only [stringify] at hf; simp at hf; omega)
        rw [hct] at hrec
        simp only [List.cons_append] at hrec
        simp only [stringify, hct, List.cons_append, List.append_assoc, List.singleton_append]
        simp [parseVal, hne, hrec]
    | obj ms =>
      cases ms with
      | nil => simp [stringify, stringifyMembers, parseVal]
      | cons m ms =>
        obtain ⟨t, hct⟩ := stringifyMembers_cons_head m ms
        have hrec := parseMembers_stringify f m ms rest
          (by simp only [stringify] at hf; simp at hf; omega)
        rw [hct] at hrec
        simp only [List.cons_append] at hrec
        simp only [stringify, hct, List.cons_append, List.append_assoc, List.singleton_append]
        simp [parseVal, hrec]
termination_by fuel

theorem parseElems_stringify (fuel : Nat) (x : Json) (xs : List Json) (rest : List Char)
    (hf : (stringifyElems (x :: xs)).length + 1 < fuel) :
    parseElems fuel (stringifyElems (x :: xs) ++ ']' :: rest) = some (x :: xs, rest) := by
  cases fuel with
  | zero => exact absurd hf (by omega)
  | succ f =>
    cases xs with
    | nil =>
      have h1 := parseVal_stringify f x (']' :: rest)
        (by simp only [stringifyElems] at hf; omega) (by rfl)
      simp [stringifyElems, parseElems, h1]
    | cons y ys =>
      have hx := stringify_length_pos x
      have h1 := parseVal_stringify f x (',' :: (stringifyElems (y :: ys) ++ ']' :: rest))
        (by simp only [stringifyElems] at hf; simp at hf; omega) (by rfl)
      have h2 := parseElems_stringify f y ys rest
        (by simp only [stringifyElems] at hf; simp at hf; omega)
      simp only [stringifyElems, List.append_assoc, List.cons_append]
      simp [parseElems, h1, h2]
termination_by fuel

theorem parseMembers_stringify (fuel : Nat) (m : List Char × Json)
    (ms : List (List Char × Json)) (rest : List Char)
    (hf : (stringifyMembers (m :: ms)).length + 1 < fuel) :
    parseMembers fuel (stringifyMembers (m :: ms) ++ '}' :: rest) = some (m :: ms, rest) := by
  cases fuel with
  | zero => exact absurd hf (by omega)
  | succ f =>
    obtain ⟨k, v⟩ := m
    cases ms with
    | nil =>
      have hs := parseStr_escape k (':' :: (stringify v ++ '}' :: rest))
      have hv := parseVal_stringify f v ('}' :: rest)
        (by simp only [stringifyMembers] at hf; simp at hf; omega) (by rfl)
      simp only [stringifyMembers, List.append_assoc, List.cons_append]
      simp [parseMembers, hs, hv]
    | cons m2 t =>
      have hs := parseStr_escape k
        (':' :: (stringify v ++ ',' :: (stringifyMembers (m2 :: t) ++ '}' :: rest)))
      have hv := parseVal_stringify f v
        (',' :: (stringifyMembers (m2 :: t) ++ '}' :: rest))
        (by simp only [stringifyMembers] at hf; simp at hf; omega) (by rfl)
      have h2 := parseMembers_stringify f m2 t rest
        (by simp only [stringifyMembers] at hf; simp at hf; omega)
      simp only [stringifyMembers, List.append_assoc, List.cons_append]
      simp [parseMembers, hs, hv, h2]
termination_by fuel

end

theorem parseJson_stringify (v : Json) : parseJson (stringify v) = some v := by
  have h := parseVal_stringify ((stringify v).length + 1) v [] (by omega) (by rfl)
  rw [List.append_nil] at h
  rw [parseJson, h]

/-! ### Processing-pass lemmas -/

lemma stepItem_id (exec : QItem → Bool) (it : QItem) :
    (stepItem exec it).1.id = it.id := by
  unfold stepItem
  split
  · rfl
  · dsimp only
    split <;> rfl

lemma stepItem_not_snd (exec : QItem → Bool) (it : QItem) :
    (!(stepItem exec it).2) = (!exec it && decide (it.retryCount.getD 0 + 1 < 3)) := by
  unfold stepItem
  by_cases h : exec it
  · simp [h]
  · simp only [h, Bool.false_eq_true, if_false, Bool.not_false, Bool.true_and]
    split
    · next h2 => simp at h2 ⊢; omega
    · next h2 => simp at h2 ⊢; omega

lemma stepItem_fst_of_fail (exec : QItem → Bool) (it : QItem) (h : exec it = false) :
    (stepItem exec it).1 = { it with retryCount := some (it.retryCount.getD 0 + 1) } := by
  unfold stepItem
  simp only [h, Bool.false_eq_true, if_false]
  split <;> rfl

/-- filtering the stepped items by "id not among the processed ids"
agrees, under a pointwise hypothesis, with filtering by "not flagged" -/
lemma filter_by_flag (l : List (QItem × Bool)) (pr : QItem → Bool)
    (h : ∀ p ∈ l, pr p.1 = !p.2) :
    (l.map (fun p => p.1)).filter pr = (l.filter (fun p => !p.2)).map (fun p => p.1) := by
  induction l with
  | nil => rfl
  | cons p l ih =>
    have hp := h p (List.mem_cons_self p l)
    simp only [List.map_cons, List.filter_cons, hp]
    cases p.2 <;> simp [ih (fun x hx => h x (List.mem_cons_of_mem p hx))]

lemma processOfflineQueue_queue_eq (exec : QItem → Bool) (q : List QItem)
    (hnd : (q.map (fun it => it.id)).Nodup) :
    (processOfflineQueue exec q).1 =
      (q.filter (fun it => !exec it && decide (it.retryCount.getD 0 + 1 < 3))).map
        (fun it => { it with retryCount := some (it.retryCount.getD 0 + 1) }) := by
  unfold processOfflineQueue
  split
  · next h => rw [List.isEmpty_iff.1 h]; rfl
  · dsimp only
    have hids : (q.map (stepItem exec)).map (fun p => p.1.id) = q.map (fun it => it.id) := by
      rw [List.map_map]
      exact List.map_congr_left (fun it _ => stepItem_id exec it)
    have hnd2 : ((q.map (stepItem exec)).map (fun p => p.1.id)).Nodup := by
      rw [hids]; exact hnd
    have hpt : ∀ p ∈ q.map (stepItem exec),
        ((((q.map (stepItem exec)).filter (fun p => p.2)).map (fun p => p.1.id)).contains
          p.1.id) = p.2 := by
      intro p hp
      cases hflag : p.2 with
      | false =>
        rw [Bool.eq_false_iff]
        intro hcon
        rw [List.elem_iff, List.mem_map] at hcon
        obtain ⟨p2, hp2, hid⟩ := hcon
        have hp2m := List.mem_of_mem_filter hp2
        have hp2f := List.of_mem_filter hp2
        have heq := List.inj_on_of_nodup_map hnd2 hp2m hp hid
        rw [heq, hflag] at hp2f
        simp at hp2f
      | true =>
        rw [List.elem_iff, List.mem_map]
        exact ⟨p, List.mem_filter.2 ⟨hp, hflag⟩, rfl⟩
    rw [filter_by_flag _ _ (fun p hp => congrArg Bool.not (hpt p hp))]
    rw [List.filter_map]
    rw [List.map_map]
    simp only [Function.comp_def]
    rw [List.filter_congr (fun it _ => stepItem_not_snd exec it)]
    exact List.map_congr_left (fun it hit => by
      have hf := List.of_mem_filter hit
      simp only [Bool.and_eq_true, Bool.not_eq_true'] at hf
      rw [stepItem_fst_of_fail exec it hf.1])

lemma queueAfter_ids_nodup (execs : Nat → QItem → Bool) (q0 : List QItem)
    (hnd : (q0.map (fun it => it.id)).Nodup) (k : Nat) :
    ((queueAfter execs q0 k).map (fun it => it.id)).Nodup := by
  induction k with
  | zero => exact hnd
  | succ k ih =>
    show (((processOfflineQueue (execs k) (queueAfter execs q0 k)).1).map
      (fun it => it.id)).Nodup
    rw [processOfflineQueue_queue_eq _ _ ih, List.map_map]
    exact ((List.filter_sublist _).map (fun it : QItem => it.id)).nodup ih

lemma mem_queueAfter_succ {execs : Nat → QItem → Bool} {q0 : List QItem}
    (hnd : (q0.map (fun it => it.id)).Nodup) {k : Nat} {it2 : QItem}
    (h : it2 ∈ queueAfter execs q0 (k + 1)) :
    ∃ it ∈ queueAfter execs q0 k,
      it2 = { it with retryCount := some (it.retryCount.getD 0 + 1) } ∧
      execs k it = false ∧ it.retryCount.getD 0 + 1 < 3 := by
  have ih := queueAfter_ids_nodup execs q0 hnd k
  rw [show queueAfter execs q0 (k + 1)
        = (processOfflineQueue (execs k) (queueAfter execs q0 k)).1 from rfl,
      processOfflineQueue_queue_eq _ _ ih, List.mem_map] at h
  obtain ⟨it, hit, heq⟩ := h
  have hf := List.of_mem_filter hit
  simp only [Bool.and_eq_true, Bool.not_eq_true', decide_eq_true_eq] at hf
  exact ⟨it, List.mem_of_mem_filter hit, heq.symm, hf.1, hf.2⟩

lemma surviving_mem {execs : Nat → QItem → Bool} {q0 : List QItem}
    (hnd : (q0.map (fun it => it.id)).Nodup) {k : Nat} {it : QItem}
    (hit : it ∈ queueAfter execs q0 k)
    (hex : execs k it = false) (hrc : it.retryCount.getD 0 + 1 < 3) :
    { it with retryCount := some (it.retryCount.getD 0 + 1) } ∈
      queueAfter execs q0 (k + 1) := by
  have ih := queueAfter_ids_nodup execs q0 hnd k
  show _ ∈ (processOfflineQueue (execs k) (queueAfter execs q0 k)).1
  rw [processOfflineQueue_queue_eq _ _ ih]
  exact List.mem_map_of_mem _ (List.mem_filter.2 ⟨hit, by simp [hex, hrc]⟩)

lemma attempts_invariant (execs : Nat → QItem → Bool) (q0 : List QItem) (i : String)
    (hnd : (q0.map (fun it => it.id)).Nodup)
    (hrc : ∀ it ∈ q0, it.id = i → it.retryCount.getD 0 = 0) (k : Nat) :
    (∀ it ∈ queueAfter execs q0 k, it.id = i →
        it.retryCount.getD 0 = attemptsBy execs q0 i k ∧
        attemptsBy execs q0 i k ≤ 2) ∧
    attemptsBy execs q0 i k ≤ 3 := by
  induction k with
  | zero =>
    constructor
    · intro it hit hid
      rw [show attemptsBy execs q0 i 0 = 0 from rfl]
      exact ⟨hrc it hit hid, by omega⟩
    · rw [show attemptsBy execs q0 i 0 = 0 from rfl]
      omega
  | succ k ih =>
    constructor
    · intro it2 hit2 hid2
      obtain ⟨it, hit, heq, hex, hlt⟩ := mem_queueAfter_succ hnd hit2
      have hid : it.id = i := by rw [heq] at hid2; exact hid2
      have h1 := ih.1 it hit hid
      have hpres : presentIn (queueAfter execs q0 k) i = true := by
        rw [presentIn, List.any_eq_true]
        exact ⟨it, hit, by simp [hid]⟩
      have hA : attemptsBy execs q0 i (k + 1) = attemptsBy execs q0 i k + 1 := by
        rw [show attemptsBy execs q0 i (k + 1)
              = attemptsBy execs q0 i k
                + (if presentIn (queueAfter execs q0 k) i then 1 else 0) from rfl,
            hpres]
        simp
      have hrc2 : it2.retryCount.getD 0 = it.retryCount.getD 0 + 1 := by
        rw [heq]; rfl
      constructor
      · omega
      · omega
    · rcases hpres : presentIn (queueAfter execs q0 k) i with - | -
      · have hA : attemptsBy execs q0 i (k + 1) = attemptsBy execs q0 i k := by
          rw [show attemptsBy execs q0 i (k + 1)
                = attemptsBy execs q0 i k
                  + (if presentIn (queueAfter execs q0 k) i then 1 else 0) from rfl,
              hpres]
          simp
        have := ih.2
        omega
      · rw [presentIn, List.any_eq_true] at hpres
        obtain ⟨it, hit, hidb⟩ := hpres
        have hid : it.id = i := by simpa using hidb
        have h1 := ih.1 it hit hid
        have hA : attemptsBy execs q0 i (k + 1) = attemptsBy execs q0 i k + 1 := by
          rw [show attemptsBy execs q0 i (k + 1)
                = attemptsBy execs q0 i k
                  + (if presentIn (queueAfter execs q0 k) i then 1 else 0) from rfl]
          rw [presentIn, if_pos (List.any_eq_true.2 ⟨it, hit, by simp [hid]⟩)]
        omega

/-- the ids of a processing pass's attempts are the queue's ids in
queue order -/
lemma processOfflineQueue_attempted (exec : QItem → Bool) (q : List QItem) :
    (processOfflineQueue exec q).2.2 = q.map (fun it => it.id) := by
  unfold processOfflineQueue
  split
  · next h => rw [List.isEmpty_iff.1 h]; rfl
  · rfl

/-! ## Claims -/

/-- C7: for every key and JSON-serializable value `v`, `getItem key`
after `setItem key v` — with no intervening `removeItem`/`clear` on that
key, in particular across writes to other keys — returns a value equal
to `v` (round-trip through serialization), and `getItem` of a key never
stored returns `null`. -/
theorem setItem_getItem_roundtrip (st : Store) (key key2 : String) (v v2 : Json)
    (hk : key2 ≠ key) :
    getItem (setItem st key v) key = some v ∧
    getItem (setItem (setItem st key v) key2 v2) key = some v ∧
    getItem emptyStore key = none := by
  refine ⟨?_, ?_, rfl⟩
  · simp [getItem, setItem, parseJson_stringify]
  · simp [getItem, setItem, Ne.symm hk, parseJson_stringify]

theorem setItem_getItem_roundtrip_witness :
    ("b" : String) ≠ "a" ∧
    (getItem (setItem emptyStore "a" (Json.num 7)) "a" = some (Json.num 7) ∧
     getItem (setItem (setItem emptyStore "a" (Json.num 7)) "b" Json.null) "a" =
       some (Json.num 7) ∧
     getItem emptyStore "a" = none) :=
  ⟨by decide, setItem_getItem_roundtrip emptyStore "a" "b" (Json.num 7) Json.null (by decide)⟩

/-- C8: after every network change event the tracked state is exactly
the newly observed (coerced) state; `isOnline` holds iff both
`isConnected` and `isInternetReachable` hold in that state; and
`isOffline` is the negation of `isOnline` on every state. -/
theorem handleEvent_state_spec (exec : QItem → Bool) (st : NMState) (ev : NetInfoEvent) :
    ((handleEvent exec st ev).1.networkState = coerceEvent ev) ∧
    (isOnline (handleEvent exec st ev).1 = true ↔
      ev.isConnected.getD false = true ∧ ev.isInternetReachable.getD false = true) ∧
    (∀ s : NMState, isOffline s = !isOnline s) := by
  have h1 : (handleEvent exec st ev).1.networkState = coerceEvent ev := by
    unfold handleEvent
    dsimp only
    split <;> rfl
  refine ⟨h1, ?_, fun s => rfl⟩
  rw [isOnline, h1]
  simp [coerceEvent]

/-- C10: after `addRecentSearch query ty`, the stored list for that type
starts with `query`, has no other occurrence of `query`, keeps the other
previously stored entries in their original relative order, and has
length at most 10. -/
theorem addRecentSearch_spec (st : RStore) (query ty : String) :
    addRecentSearch st query ty ("recent_" ++ ty) =
      some (query ::
        (((st ("recent_" ++ ty)).getD []).filter (fun item => !(item == query))).take 9) ∧
    (query ::
        (((st ("recent_" ++ ty)).getD []).filter (fun item => !(item == query))).take 9).length
      ≤ 10 ∧
    query ∉
      ((((st ("recent_" ++ ty)).getD []).filter (fun item => !(item == query))).take 9) ∧
    ((((st ("recent_" ++ ty)).getD []).filter (fun item => !(item == query))).take 9).Sublist
      ((st ("recent_" ++ ty)).getD []) := by
  refine ⟨?_, ?_, ?_, ?_⟩
  · unfold addRecentSearch
    simp
  · simp only [List.length_cons]
    have := List.length_take_le 9
      (((st ("recent_" ++ ty)).getD []).filter (fun item => !(item == query)))
    omega
  · intro hmem
    have hmem2 := List.take_subset 9 _ hmem
    have := List.of_mem_filter hmem2
    simp at this
  · exact (List.take_sublist 9 _).trans (List.filter_sublist _)

/-- C3: for a cache entry stored with an expiry timestamp (entries
written by `setCache` with a nonzero expiration always carry
`expiresAt = now + minutes·60·1000 ≥ 60000 > 0`), `getCache` returns the
stored data while the current time is not past `expiresAt`, deletes the
entry and returns `null` when the current time is strictly past it, and
`getCache` of a key never set returns `null`. -/
theorem getCache_expiry_spec {V : Type} (st : CStore V) (now : Nat) (key : String) :
    (∀ ci e, st ("cache_" ++ key) = some ci → ci.expiresAt = some e → 0 < e →
      (now ≤ e → getCache st now key = (some ci.data, st)) ∧
      (e < now → (getCache st now key).1 = none ∧
        (getCache st now key).2 ("cache_" ++ key) = none)) ∧
    (st ("cache_" ++ key) = none → getCache st now key = (none, st)) := by
  constructor
  · intro ci e h he hpos
    constructor
    · intro hle
      have hlt : ¬ e < now := by omega
      simp [getCache, h, cacheExpired, he, hlt]
    · intro hlt
      have h0 : e ≠ 0 := by omega
      simp [getCache, h, cacheExpired, he, h0, hlt]
  · intro h
    simp [getCache, h]

theorem getCache_expiry_spec_witness :
    ((fun k => if k = "cache_k" then some (⟨37, 0, some 100⟩ : CacheItem Nat) else none)
        ("cache_" ++ "k") = some ⟨37, 0, some 100⟩) ∧
    (0 : Nat) < 100 ∧ (100 : Nat) < 200 ∧
    ((getCache (fun k => if k = "cache_k" then some (⟨37, 0, some 100⟩ : CacheItem Nat)
        else none) 200 "k").1 = none ∧
     (getCache (fun k => if k = "cache_k" then some (⟨37, 0, some 100⟩ : CacheItem Nat)
        else none) 200 "k").2 ("cache_" ++ "k") = none) := by
  refine ⟨by decide, by decide, by decide, ?_⟩
  exact ((getCache_expiry_spec
      (fun k => if k = "cache_k" then some (⟨37, 0, some 100⟩ : CacheItem Nat) else none)
      200 "k").1 ⟨37, 0, some 100⟩ 100 (by decide) rfl (by decide)).2 (by decide)

/-- counterexample to C4 as stated: supplying an expiration of `0`
minutes does not store `expiresAt = now + 0·60·1000`; the JavaScript
truthiness test in `setCache` drops the expiry entirely. -/
theorem setCache_zero_expiration_cex :
    (setCache (emptyCStore Nat) 5 "k" 37 (some 0)) ("cache_" ++ "k") =
      some ⟨37, 5, none⟩ ∧
    (some (⟨37, 5, none⟩ : CacheItem Nat) ≠
      some (⟨37, 5, some (5 + 0 * 60 * 1000)⟩ : CacheItem Nat)) := by
  constructor
  · simp [setCache, emptyCStore]
  · simp

/-- C4 (amended): `setCache` stores `expiresAt = now + minutes·60·1000`
exactly when a **nonzero** expiration is supplied; when the expiration
is omitted — or equal to `0`, which the truthiness test treats the same
way — the entry has no `expiresAt`; and an entry with no `expiresAt` is
returned by `getCache` regardless of the current time and is never
deleted by it. -/
theorem setCache_getCache_spec {V : Type} (st : CStore V) (now : Nat) (key : String)
    (data : V) :
    (∀ m, m ≠ 0 →
      setCache st now key data (some m) ("cache_" ++ key) =
        some ⟨data, now, some (now + m * 60 * 1000)⟩) ∧
    (setCache st now key data none ("cache_" ++ key) = some ⟨data, now, none⟩) ∧
    (setCache st now key data (some 0) ("cache_" ++ key) = some ⟨data, now, none⟩) ∧
    (∀ ci, st ("cache_" ++ key) = some ci → ci.expiresAt = none →
      getCache st now key = (some ci.data, st)) := by
  refine ⟨?_, ?_, ?_, ?_⟩
  · intro m hm
    simp [setCache, hm]
  · simp [setCache]
  · simp [setCache]
  · intro ci h he
    simp [getCache, h, cacheExpired, he]

theorem setCache_getCache_spec_witness :
    (2 : Nat) ≠ 0 ∧
    setCache (emptyCStore Nat) 10 "k" 37 (some 2) ("cache_" ++ "k") =
      some ⟨37, 10, some (10 + 2 * 60 * 1000)⟩ := by
  refine ⟨by decide, ?_⟩
  exact (setCache_getCache_spec (emptyCStore Nat) 10 "k" 37).1 2 (by decide)

/-- C2: the offline queue is replayed on a network event exactly when
the previously tracked state was disconnected and the new state is
connected; every other transition leaves the queue untouched and
attempts nothing; and a processing pass on an empty queue does nothing. -/
theorem handleEvent_replay_iff (exec : QItem → Bool) (st : NMState) (ev : NetInfoEvent) :
    (st.networkState.isConnected = false ∧ (coerceEvent ev).isConnected = true →
      (handleEvent exec st ev).2.2 = st.offlineQueue.map (fun it => it.id)) ∧
    (st.networkState.isConnected = true ∨ (coerceEvent ev).isConnected = false →
      (handleEvent exec st ev).2.2 = [] ∧
      (handleEvent exec st ev).1.offlineQueue = st.offlineQueue) ∧
    (st.offlineQueue = [] →
      (handleEvent exec st ev).1.offlineQueue = [] ∧ (handleEvent exec st ev).2.1 = []) := by
  refine ⟨?_, ?_, ?_⟩
  · rintro ⟨h1, h2⟩
    unfold handleEvent
    simp [h1, h2, processOfflineQueue_attempted]
  · intro h
    unfold handleEvent
    rcases h with h | h <;> simp [h]
  · intro h
    unfold handleEvent
    dsimp only
    split
    · simp [h, processOfflineQueue]
    · simp [h]

theorem handleEvent_replay_iff_witness :
    ((⟨initialNetworkState,
        [⟨"id1", "sendMessage", Json.null, 0, some 0⟩]⟩ : NMState).networkState.isConnected
      = false ∧
     (coerceEvent ⟨some true, some true, "wifi", none⟩).isConnected = true) ∧
    (handleEvent (fun _ => true)
        ⟨initialNetworkState, [⟨"id1", "sendMessage", Json.null, 0, some 0⟩]⟩
        ⟨some true, some true, "wifi", none⟩).2.2 =
      ([(⟨"id1", "sendMessage", Json.null, 0, some 0⟩ : QItem)]).map (fun it => it.id) :=
  ⟨⟨rfl, rfl⟩,
    (handleEvent_replay_iff (fun _ => true)
        ⟨initialNetworkState, [⟨"id1", "sendMessage", Json.null, 0, some 0⟩]⟩
        ⟨some true, some true, "wifi", none⟩).1 ⟨rfl, rfl⟩⟩

/-- C5 (code bug): `NetworkManager.addToOfflineQueue` and the
`StorageManager.addToOfflineQueue` call it makes generate *independent*
ids, so after a successful replay the item is removed from the in-memory
queue but `removeFromOfflineQueue` (keyed by the in-memory id) leaves
the persisted `offline_queue` entry in place: the replayed action is
still pending for the next initialization. -/
theorem offline_replay_leaves_persisted_item :
    c5After.1.offlineQueue.map (fun it => it.id) = [mkId 5 1] ∧
    c5After.2.map (fun it => it.id) = [mkId 5 2] ∧
    mkId 5 1 ≠ mkId 5 2 ∧
    c5Pass.1 = [] ∧
    c5Pass.2.1 = [mkId 5 1] ∧
    (updateStorageQueue c5After.2 c5Pass.2.1).map (fun it => it.id) = [mkId 5 2] := by
  refine ⟨rfl, rfl, by decide, ?_, ?_, ?_⟩ <;> rfl

/-- counterexample to C9 as stated: offline with a *falsy* cached value
present (`false` here), `makeRequest` does not return the cached value;
the truthiness test `if (cachedData)` skips it and the fallback is
returned instead. -/
theorem makeRequest_falsy_cache_cex :
    (getCache (fun k => if k = "cache_" ++ "k"
        then some (⟨Json.bool false, 0, none⟩ : CacheItem Json) else none) 0 "k").1 =
      some (Json.bool false) ∧
    (makeRequest ⟨initialNetworkState, []⟩ (Except.ok Json.null) (some (Json.bool true))
        (some "k")
        (fun k => if k = "cache_" ++ "k"
          then some (⟨Json.bool false, 0, none⟩ : CacheItem Json) else none) 0).1 =
      Except.ok (Json.bool true) ∧
    Json.bool true ≠ Json.bool false := by
  refine ⟨rfl, rfl, by simp⟩

/-- C9 (amended): as the claim, except that a cached value is used only
when it is *truthy*: a falsy cached value (`false`, `0`, `""`, `null`)
is treated as absent both in the offline path and in the
request-failure path, falling through to `fallbackData` or the error. -/
theorem makeRequest_spec (nm : NMState) (requestFn : Except String Json)
    (fb : Option Json) (k : String) (st : CStore Json) (now : Nat) :
    (isOffline nm = true →
      ((makeRequest nm requestFn fb (some k) st now).2.2 = false) ∧
      (∀ v, (getCache st now k).1 = some v → truthy v = true →
        (makeRequest nm requestFn fb (some k) st now).1 = Except.ok v) ∧
      (∀ fbv, fb = some fbv →
        ((getCache st now k).1 = none ∨
          (∃ v, (getCache st now k).1 = some v ∧ truthy v = false)) →
        (makeRequest nm requestFn fb (some k) st now).1 = Except.ok fbv) ∧
      (fb = none →
        ((getCache st now k).1 = none ∨
          (∃ v, (getCache st now k).1 = some v ∧ truthy v = false)) →
        (makeRequest nm requestFn fb (some k) st now).1 =
          Except.error ReqError.noConnection)) ∧
    (isOffline nm = false →
      (∀ res, requestFn = Except.ok res →
        makeRequest nm requestFn fb (some k) st now =
          (Except.ok res, setCache st now k res (some 30), true)) ∧
      (∀ e, requestFn = Except.error e →
        ((makeRequest nm requestFn fb (some k) st now).2.2 = true) ∧
        (∀ v, (getCache st now k).1 = some v → truthy v = true →
          (makeRequest nm requestFn fb (some k) st now).1 = Except.ok v) ∧
        (((getCache st now k).1 = none ∨
            (∃ v, (getCache st now k).1 = some v ∧ truthy v = false)) →
          (makeRequest nm requestFn fb (some k) st now).1 =
            Except.error (ReqError.original e)))) := by
  constructor
  · intro hoff
    refine ⟨?_, ?_, ?_, ?_⟩
    · unfold makeRequest
      rw [hoff]
      dsimp only
      rcases h : (getCache st now k).1 with - | v
      · rcases fb with - | fbv <;> simp
      · by_cases ht : truthy v <;> rcases fb with - | fbv <;> simp [ht]
    · intro v hv ht
      unfold makeRequest
      rw [hoff]
      simp [hv, ht]
    · intro fbv hfb hc
      unfold makeRequest
      rw [hoff, hfb]
      rcases hc with hc | ⟨v, hv, ht⟩
      · simp [hc]
      · simp [hv, ht]
    · intro hfb hc
      unfold makeRequest
      rw [hoff, hfb]
      rcases hc with hc | ⟨v, hv, ht⟩
      · simp [hc]
      · simp [hv, ht]
  · intro hon
    constructor
    · intro res hres
      unfold makeRequest
      rw [hon, hres]
      simp
    · intro e hres
      refine ⟨?_, ?_, ?_⟩
      · unfold makeRequest
        rw [hon, hres]
        dsimp only
        rcases h : (getCache st now k).1 with - | v
        · simp
        · by_cases ht : truthy v <;> simp [ht]
      · intro v hv ht
        unfold makeRequest
        rw [hon, hres]
        simp [hv, ht]
      · intro hc
        unfold makeRequest
        rw [hon, hres]
        rcases hc with hc | ⟨v, hv, ht⟩
        · simp [hc]
        · simp [hv, ht]

theorem makeRequest_spec_witness :
    isOffline (⟨initialNetworkState, []⟩ : NMState) = true ∧
    (getCache (emptyCStore Json) 0 "k").1 = none ∧
    (makeRequest ⟨initialNetworkState, []⟩ (Except.ok Json.null) (some (Json.num 3))
        (some "k") (emptyCStore Json) 0).1 = Except.ok (Json.num 3) :=
  ⟨rfl, rfl,
    ((makeRequest_spec ⟨initialNetworkState, []⟩ (Except.ok Json.null) (some (Json.num 3))
        "k" (emptyCStore Json) 0).1 rfl).2.2.1 (Json.num 3) rfl (Or.inl rfl)⟩

/-- C6: a processing pass attempts the queued items sequentially in
enqueue (FIFO) order — the attempt trace is exactly the queue's ids in
order, so each item is attempted at most once per pass — and the items
that neither succeeded nor reached the retry limit remain, with their
retry counts incremented, in their original relative order. -/
theorem processOfflineQueue_pass_spec (exec : QItem → Bool) (q : List QItem)
    (hnd : (q.map (fun it => it.id)).Nodup) :
    (processOfflineQueue exec q).2.2 = q.map (fun it => it.id) ∧
    (processOfflineQueue exec q).1 =
      (q.filter (fun it => !exec it && decide (it.retryCount.getD 0 + 1 < 3))).map
        (fun it => { it with retryCount := some (it.retryCount.getD 0 + 1) }) :=
  ⟨processOfflineQueue_attempted exec q, processOfflineQueue_queue_eq exec q hnd⟩

theorem processOfflineQueue_pass_spec_witness :
    ((([⟨"a", "x", Json.null, 0, some 0⟩, ⟨"b", "y", Json.null, 0, some 0⟩] : List QItem).map
        (fun it => it.id)).Nodup) ∧
    (processOfflineQueue (fun it => it.id == "b")
        [⟨"a", "x", Json.null, 0, some 0⟩, ⟨"b", "y", Json.null, 0, some 0⟩]).2.2 =
      ([⟨"a", "x", Json.null, 0, some 0⟩, ⟨"b", "y", Json.null, 0, some 0⟩] : List QItem).map
        (fun it => it.id) ∧
    (processOfflineQueue (fun it => it.id == "b")
        [⟨"a", "x", Json.null, 0, some 0⟩, ⟨"b", "y", Json.null, 0, some 0⟩]).1 =
      (([⟨"a", "x", Json.null, 0, some 0⟩, ⟨"b", "y", Json.null, 0, some 0⟩] : List QItem).filter
          (fun it => !(fun it : QItem => it.id == "b") it
            && decide (it.retryCount.getD 0 + 1 < 3))).map
        (fun it => { it with retryCount := some (it.retryCount.getD 0 + 1) }) := by
  refine ⟨by decide, ?_, ?_⟩
  · exact (processOfflineQueue_pass_spec (fun it => it.id == "b")
      [⟨"a", "x", Json.null, 0, some 0⟩, ⟨"b", "y", Json.null, 0, some 0⟩] (by decide)).1
  · exact (processOfflineQueue_pass_spec (fun it => it.id == "b")
      [⟨"a", "x", Json.null, 0, some 0⟩, ⟨"b", "y", Json.null, 0, some 0⟩] (by decide)).2

/-- C1: on each processing pass a failed attempt increments the item's
`retryCount` by one and a surviving item has neither succeeded nor
reached a count of 3; an item is removed exactly when its attempt
succeeded or its count reached 3; consequently an action whose
`retryCount` starts at 0 (as all enqueued actions do) is attempted at
most 3 times across all passes. -/
theorem offlineQueue_retry_bound (execs : Nat → QItem → Bool) (q0 : List QItem)
    (i : String) (hnd : (q0.map (fun it => it.id)).Nodup)
    (hrc0 : ∀ it ∈ q0, it.id = i → it.retryCount.getD 0 = 0) :
    (∀ k it2, it2 ∈ queueAfter execs q0 (k + 1) → it2.id = i →
      ∃ it ∈ queueAfter execs q0 k, it.id = i ∧ execs k it = false ∧
        it2.retryCount = some (it.retryCount.getD 0 + 1) ∧
        it.retryCount.getD 0 + 1 < 3) ∧
    (∀ k it, it ∈ queueAfter execs q0 k → it.id = i →
      presentIn (queueAfter execs q0 (k + 1)) i = false →
      execs k it = true ∨ it.retryCount.getD 0 + 1 = 3) ∧
    (∀ n, attemptsBy execs q0 i n ≤ 3) := by
  refine ⟨?_, ?_, fun n => (attempts_invariant execs q0 i hnd hrc0 n).2⟩
  · intro k it2 hit2 hid2
    obtain ⟨it, hit, heq, hex, hlt⟩ := mem_queueAfter_succ hnd hit2
    have hid : it.id = i := by rw [heq] at hid2; exact hid2
    refine ⟨it, hit, hid, hex, ?_, hlt⟩
    rw [heq]
  · intro k it hit hid hnp
    by_cases hex : execs k it = true
    · exact Or.inl hex
    · right
      rw [Bool.not_eq_true] at hex
      by_cases hlt : it.retryCount.getD 0 + 1 < 3
      · exfalso
        have hmem := surviving_mem hnd hit hex hlt
        have hpr : presentIn (queueAfter execs q0 (k + 1)) i = true := by
          rw [presentIn, List.any_eq_true]
          exact ⟨_, hmem, by simp [hid]⟩
        rw [hpr] at hnp
        simp at hnp
      · have h1 := (attempts_invariant execs q0 i hnd hrc0 k).1 it hit hid
        omega

theorem offlineQueue_retry_bound_witness :
    ((([(⟨"a", "act", Json.null, 0, some 0⟩ : QItem)]).map (fun it => it.id)).Nodup) ∧
    attemptsBy (fun _ _ => false) [⟨"a", "act", Json.null, 0, some 0⟩] "a" 5 ≤ 3 ∧
    attemptsBy (fun _ _ => false) [⟨"a", "act", Json.null, 0, some 0⟩] "a" 5 = 3 := by
  refine ⟨by decide, ?_, by rfl⟩
  exact (offlineQueue_retry_bound (fun _ _ => false) [⟨"a", "act", Json.null, 0, some 0⟩]
    "a" (by decide)
    (by intro it hit hid; rw [List.mem_singleton] at hit; subst hit; rfl)).2.2 5

end Hatake
